import Mathlib

/-!
Shallow embedding of the target-configuration parser and derived-value model
of `src/utils.py` (repository `openwrt-mt6000-build`).

Strings are modelled as Lean `String` / `List Char`; the Python regular
expressions of `get_target_config` are embedded as structurally recursive
character-list transducers whose behaviour matches the CPython regex engine
on the relevant patterns (leftmost matching, greedy repetition with
backtracking).  Python's `\s`, `\w` and `str.splitlines` are modelled at
their ASCII/Latin-1 behaviour, which covers every character class the
patterns can produce.
-/

namespace OpenwrtBuild

/-- Whitespace characters matched by Python's regex `\s` and stripped by
`str.strip()` (ASCII part: space, tab, newline, carriage return, vertical
tab, form feed). -/
def isWs (c : Char) : Bool :=
  c = ' ' || c = '\t' || c = '\n' || c = '\r' || c = '\x0b' || c = '\x0c'

/-- Word characters matched by `\w` (ASCII part: letters, digits, underscore). -/
def isWordChar (c : Char) : Bool :=
  c.isAlphanum || c = '_'

/-- Characters allowed in the `key` group of the line pattern
`(?P<key>[\w\-\.]+)`. -/
def isKeyChar (c : Char) : Bool :=
  isWordChar c || c = '-' || c = '.'

/-- Characters allowed in the `value` group `(?P<value>[\w\s\-\.]*)`. -/
def isValueChar (c : Char) : Bool :=
  isKeyChar c || isWs c

/-- Quote characters of the class `[\"\']`. -/
def isQuote (c : Char) : Bool :=
  c = '"' || c = '\x27'

/-- Line-boundary characters recognised by Python `str.splitlines`
(besides the two-character boundary `\r\n`). -/
def isLineBreak (c : Char) : Bool :=
  c = '\n' || c = '\r' || c = '\x0b' || c = '\x0c' ||
  c = '\x1c' || c = '\x1d' || c = '\x1e' || c = '\x85' ||
  c = '\u2028' || c = '\u2029'

/-- Split a character stream at `'\n'` characters, keeping the separators
implicit: the result segments, interleaved with `'\n'`, reconstitute the
input.  Mirrors how `re.MULTILINE` anchors `^` after every `'\n'`. -/
def splitNl : List Char → List (List Char)
  | [] => [[]]
  | '\n' :: cs => [] :: splitNl cs
  | c :: cs =>
    match splitNl cs with
    | s :: ss => (c :: s) :: ss
    | [] => [[c]]

/-- Rejoin `'\n'`-separated segments produced by `splitNl`. -/
def joinNl (segs : List (List Char)) : List Char :=
  List.intercalate ['\n'] segs

/-- Drop everything up to and including the last `'\r'` or `'?'` of the
list, returning the suffix after it; `none` when no such character occurs.
This is how the backtracking of `re.sub(r"(^#.*[\r?\n])", ...)` resolves on
a final line without a trailing newline: the character class `[\r?\n]`
contains the literal `'?'`, and greedy `.*` backtracks to the rightmost
occurrence of a class character. -/
def dropHashLast : List Char → Option (List Char)
  | [] => none
  | c :: cs =>
    match dropHashLast cs with
    | some t => some t
    | none => if c = '\r' || c = '?' then some cs else none

/-- First comment-removal pass, `re.sub(r"(^#.*[\r?\n])", "", contents,
flags=re.MULTILINE)`, acting on the `'\n'`-split segments.  A non-final
segment beginning with `'#'` is removed together with its newline; on the
final segment (not followed by `'\n'`) the greedy match has to end at a
`'\r'` or `'?'` character, so only the prefix up to the last such character
is removed, and the segment is kept whole when it has none. -/
def removeCommentLines : List (List Char) → List (List Char)
  | [] => []
  | [last] =>
    match last with
    | '#' :: body =>
      match dropHashLast body with
      | some t => [t]
      | none => [last]
    | _ => [last]
  | seg :: rest =>
    match seg with
    | '#' :: _ => removeCommentLines rest
    | _ => seg :: removeCommentLines rest

/-- Second comment-removal pass, `re.sub(r"(#.*)(?=\r?\n)", "", contents)`:
on every `'\n'`-terminated segment, everything from the first `'#'` on is
removed; the final segment is unchanged because the lookahead `(?=\r?\n)`
can never succeed there. -/
def removeTrailingComments : List (List Char) → List (List Char)
  | [] => []
  | [last] => [last]
  | seg :: rest => seg.takeWhile (fun c => !(c = '#')) :: removeTrailingComments rest

/-- Inner substitution `re.sub(r"[\\\r\n\s]+", " ", ...)` applied to a
quoted region: every maximal run of backslash/whitespace characters is
replaced by a single space.  The `Bool` state records whether we are inside
a run whose space has already been emitted. -/
def collapseRunsAux : Bool → List Char → List Char
  | _, [] => []
  | inRun, c :: cs =>
    if isWs c || c = '\\' then
      if inRun then collapseRunsAux true cs
      else ' ' :: collapseRunsAux true cs
    else c :: collapseRunsAux false cs

/-- Collapse runs of backslash/whitespace characters to single spaces. -/
def collapseRuns (l : List Char) : List Char :=
  collapseRunsAux false l

/-- Quote normalisation pass
`re.sub(r"(?:[\"\'])[^\"\']+(?:[\"\'])", lambda m: re.sub(r"[\\\r\n\s]+", " ", m.group(0)), contents)`.
The state `none` means we are scanning outside any candidate match; the
state `some (q, body)` means an opening quote `q` has been seen and `body`
(reversed) collects the non-quote characters after it.  A quote closing a
nonempty body completes a match whose interior is run-collapsed; a quote
immediately following the opener means the regex fails at the opener (the
body class `[^\"\']+` needs at least one character) and scanning resumes at
the second quote. -/
def collapseQuotedAux : Option (Char × List Char) → List Char → List Char
  | none, [] => []
  | none, c :: cs =>
    if isQuote c then collapseQuotedAux (some (c, [])) cs
    else c :: collapseQuotedAux none cs
  | some (q, body), [] => q :: body.reverse
  | some (q, body), c :: cs =>
    if isQuote c then
      if body.isEmpty then q :: collapseQuotedAux (some (c, [])) cs
      else q :: (collapseRuns body.reverse ++ c :: collapseQuotedAux none cs)
    else collapseQuotedAux (some (q, c :: body)) cs

/-- Collapse backslash/whitespace runs inside quote-delimited regions. -/
def collapseQuoted (l : List Char) : List Char :=
  collapseQuotedAux none l

/-- Python `str.splitlines` on a character list: split at `\r\n`, or at any
single line-break character; a trailing terminator produces no extra empty
line.  `cur` accumulates the current line reversed. -/
def splitlinesAux (cur : List Char) : List Char → List (List Char)
  | [] => if cur.isEmpty then [] else [cur.reverse]
  | '\r' :: '\n' :: cs => cur.reverse :: splitlinesAux [] cs
  | c :: cs =>
    if isLineBreak c then cur.reverse :: splitlinesAux [] cs
    else splitlinesAux (c :: cur) cs

/-- Python `str.splitlines`. -/
def splitlines (l : List Char) : List (List Char) :=
  splitlinesAux [] l

/-- The anchored line pattern
`(?P<key>[\w\-\.]+)=(?:[\'\"])?(?P<value>[\w\s\-\.]*)(?:[\'\"])?` applied
with `re.Pattern.match`: a maximal nonempty run of key characters must be
followed directly by `'='`; an optional quote is consumed, then the greedy
(maximal) run of value characters is captured.  Trailing text (including an
optional closing quote) is ignored.  Returns the captured key and value. -/
def matchLine (line : List Char) : Option (List Char × List Char) :=
  let key := line.takeWhile isKeyChar
  let rest := line.dropWhile isKeyChar
  if key.isEmpty then none
  else
    match rest with
    | '=' :: rest1 =>
      let rest2 :=
        match rest1 with
        | q :: t => if isQuote q then t else rest1
        | [] => []
      some (key, rest2.takeWhile isValueChar)
    | _ => none

/-- Python `str.strip()`: remove leading and trailing whitespace. -/
def pyStrip (l : List Char) : List Char :=
  ((l.dropWhile isWs).reverse.dropWhile isWs).reverse

/-- The substitution `re.sub(r"\s\s+", " ", value)`: every maximal run of
two or more whitespace characters becomes one space, while an isolated
whitespace character is left unchanged.  The `Bool` state records whether
we are skipping the remainder of a collapsed run. -/
def collapseWsAux : Bool → List Char → List Char
  | _, [] => []
  | true, c :: cs =>
    if isWs c then collapseWsAux true cs
    else c :: collapseWsAux false cs
  | false, c :: cs =>
    if isWs c then
      match cs with
      | d :: _ =>
        if isWs d then ' ' :: collapseWsAux true cs
        else c :: collapseWsAux false cs
      | [] => [c]
    else c :: collapseWsAux false cs

/-- Embedding of `utils.strip_whitespace`: strip, then collapse internal
whitespace runs of length at least two to a single space. -/
def strip_whitespace (l : List Char) : List Char :=
  collapseWsAux false (pyStrip l)

/-- String-level `strip_whitespace`. -/
def stripWhitespaceStr (s : String) : String :=
  String.mk (strip_whitespace s.data)

/-- The required configuration keys, `REQUIRED_CONFIG_KEYS`. -/
def REQUIRED_CONFIG_KEYS : List String :=
  ["OPENWRT_PROFILE", "OPENWRT_RELEASE", "OPENWRT_TARGET",
   "OPENWRT_SUBTARGET", "OPENWRT_PACKAGES"]

/-- The Python `repr` of `REQUIRED_CONFIG_KEYS` as interpolated into the
missing-keys error message by the f-string. -/
def requiredKeysRepr : String :=
  "[\x27OPENWRT_PROFILE\x27, \x27OPENWRT_RELEASE\x27, \x27OPENWRT_TARGET\x27, \x27OPENWRT_SUBTARGET\x27, \x27OPENWRT_PACKAGES\x27]"

/-- A Python `dict` of strings, modelled as an association list without
duplicate keys, in first-insertion order. -/
def RawConfig := List (String × String)

/-- Membership test `k in c.keys()`. -/
def hasKey (c : List (String × String)) (k : String) : Bool :=
  c.any (fun p => p.1 == k)

/-- `c[k] = v` on a Python dict: overwrite in place when the key exists,
append otherwise. -/
def dictSet (c : List (String × String)) (k v : String) : List (String × String) :=
  if hasKey c k then c.map (fun p => if p.1 == k then (k, v) else p)
  else c ++ [(k, v)]

/-- `c.get(k)`: the value stored for `k`, if any. -/
def pyGet (c : List (String × String)) (k : String) : Option String :=
  (c.find? (fun p => p.1 == k)).map (fun p => p.2)

/-- `c.get(k)` in a context where the key is known present (total
variant defaulting to the empty string). -/
def pyGetD (c : List (String × String)) (k : String) : String :=
  (pyGet c k).getD ""

/-- The parsing loop of `get_target_config`: comment removal, quoted-run
normalisation, `splitlines`, per-line pattern matching, and dict insertion
of the whitespace-normalised captures. -/
def parseConfig (contents : String) : List (String × String) :=
  let cs := joinNl (removeTrailingComments (removeCommentLines (splitNl contents.data)))
  let cs := collapseQuoted cs
  (splitlines cs).foldl
    (fun c line =>
      match matchLine line with
      | some (k, v) => dictSet c (String.mk (strip_whitespace k)) (String.mk (strip_whitespace v))
      | none => c)
    []

/-- Split a character list at a separator character (used for the
dot-separated identifier lists of the semver grammar). -/
def splitOnChar (sep : Char) : List Char → List (List Char)
  | [] => [[]]
  | c :: cs =>
    if c = sep then [] :: splitOnChar sep cs
    else
      match splitOnChar sep cs with
      | s :: ss => (c :: s) :: ss
      | [] => [[c]]

/-- Decimal digits to a natural number. -/
def digitsToNat (l : List Char) : Nat :=
  l.foldl (fun n c => 10 * n + (c.toNat - 48)) 0

/-- A numeric identifier of the semver grammar, `0|[1-9]\d*`: nonempty,
all digits, no leading zero unless it is exactly `0`. -/
def isNumericId (l : List Char) : Bool :=
  !l.isEmpty && l.all Char.isDigit &&
    (match l with
     | '0' :: rest => rest.isEmpty
     | _ => true)

/-- A character allowed in pre-release/build identifiers: `[0-9a-zA-Z-]`. -/
def isIdChar (c : Char) : Bool :=
  c.isAlphanum || c = '-'

/-- A pre-release identifier, `0|[1-9]\d*|\d*[a-zA-Z-][0-9a-zA-Z-]*`:
nonempty, identifier characters only, and when purely numeric it must have
no leading zero. -/
def isPrereleaseId (l : List Char) : Bool :=
  !l.isEmpty && l.all isIdChar &&
    (if l.all Char.isDigit then isNumericId l else true)

/-- A build identifier, `[0-9a-zA-Z-]+`: nonempty identifier characters. -/
def isBuildId (l : List Char) : Bool :=
  !l.isEmpty && l.all isIdChar

/-- A parsed semantic version, the shape of `semver.VersionInfo`. -/
structure VersionInfo where
  major : Nat
  minor : Nat
  patch : Nat
  prerelease : Option String
  build : Option String
  deriving DecidableEq, Repr

/-- Consume a leading numeric version component (`0|[1-9]\d*`): the maximal
digit run must be a valid numeric identifier. -/
def parseVersionNum (cs : List Char) : Option (Nat × List Char) :=
  let ds := cs.takeWhile Char.isDigit
  if isNumericId ds then some (digitsToNat ds, cs.dropWhile Char.isDigit)
  else none

/-- Parse the optional `+build` tail of a semver string; the input starts
right after the patch/pre-release part.  Empty input is accepted (no build
metadata); otherwise a `'+'` followed by valid dot-separated build
identifiers reaching the end of the string is required. -/
def parseBuildTail : List Char → Option (Option String)
  | [] => some none
  | '+' :: rest =>
    let reg := rest.takeWhile (fun c => isIdChar c || c = '.')
    if rest.dropWhile (fun c => isIdChar c || c = '.') |>.isEmpty then
      if (splitOnChar '.' reg).all isBuildId then some (some (String.mk reg))
      else none
    else none
  | _ => none

/-- Parse the optional `-prerelease` and `+build` tail of a semver string. -/
def parsePrereleaseTail : List Char → Option (Option String × Option String)
  | [] => some (none, none)
  | '-' :: rest =>
    let reg := rest.takeWhile (fun c => isIdChar c || c = '.')
    if (splitOnChar '.' reg).all isPrereleaseId then
      match parseBuildTail (rest.dropWhile (fun c => isIdChar c || c = '.')) with
      | some b => some (some (String.mk reg), b)
      | none => none
    else none
  | cs =>
    match parseBuildTail cs with
    | some b => some (none, b)
    | none => none

/-- Embedding of `semver.parse_version_info` (the anchored semver grammar
`major.minor.patch[-prerelease][+build]`); `none` models the `ValueError`
raised on input that is not a valid semver string. -/
def parse_version_info (s : String) : Option VersionInfo := do
  let (major, r1) ← parseVersionNum s.data
  match r1 with
  | '.' :: r2 =>
    let (minor, r3) ← parseVersionNum r2
    match r3 with
    | '.' :: r4 =>
      let (patch, r5) ← parseVersionNum r4
      let (pre, build) ← parsePrereleaseTail r5
      pure ⟨major, minor, patch, pre, build⟩
    | _ => none
  | _ => none

/-- The format template `IMAGEBUILDER_BASE_URL` of `utils.py` (the brace
pairs are the positional placeholders of `str.format`). -/
def IMAGEBUILDER_BASE_URL : String :=
  "https://downloads.openwrt.org/releases/\x7b\x7d/targets/\x7b\x7d/\x7b\x7d/openwrt-imagebuilder-\x7b\x7d-\x7b\x7d-\x7b\x7d.Linux-x86_64.tar.\x7b\x7d"

/-- Python `str.format` restricted to empty positional `\x7b\x7d`
placeholders, substituting the arguments in order. -/
def pyFormat : List Char → List (List Char) → List Char
  | '\x7b' :: '\x7d' :: rest, a :: args => a ++ pyFormat rest args
  | '\x7b' :: '\x7d' :: rest, [] => pyFormat rest []
  | c :: rest, args => c :: pyFormat rest args
  | [], _ => []

/-- Embedding of the frozen `attrs` class `TargetConfig` of `utils.py`. -/
structure TargetConfig where
  profile : String
  release : VersionInfo
  target : String
  subtarget : String
  packages : List String
  disabled_services : List String
  deriving DecidableEq, Repr

/-- The `release_str` property: `f"{major}.{minor}.{patch}"`. -/
def TargetConfig.release_str (tc : TargetConfig) : String :=
  Nat.repr tc.release.major ++ "." ++ Nat.repr tc.release.minor ++ "." ++ Nat.repr tc.release.patch

/-- The `imagebuilder_url` property: extension `zst` from release major 24
on, `xz` before, substituted into `IMAGEBUILDER_BASE_URL` by `str.format`. -/
def TargetConfig.imagebuilder_url (tc : TargetConfig) : String :=
  let ext : String := if 24 ≤ tc.release.major then "zst" else "xz"
  String.mk (pyFormat IMAGEBUILDER_BASE_URL.data
    [tc.release_str.data, tc.target.data, tc.subtarget.data,
     tc.release_str.data, tc.target.data, tc.subtarget.data, ext.data])

/-- The `image_name` method:
`f"openwrt/{basename}-{self.release_str}-{self.target}-{self.subtarget}"`. -/
def TargetConfig.image_name (tc : TargetConfig) (basename : String := "imagebuilder") : String :=
  "openwrt/" ++ basename ++ "-" ++ tc.release_str ++ "-" ++ tc.target ++ "-" ++ tc.subtarget

/-- Python `str.split()` with no arguments: split on whitespace runs,
discarding empty fields.  `cur` accumulates the current word reversed. -/
def splitWsAux (cur : List Char) : List Char → List (List Char)
  | [] => if cur.isEmpty then [] else [cur.reverse]
  | c :: cs =>
    if isWs c then
      if cur.isEmpty then splitWsAux [] cs
      else cur.reverse :: splitWsAux [] cs
    else splitWsAux (c :: cur) cs

/-- Python `str.split()` on a string, producing strings. -/
def pySplit (s : String) : List String :=
  (splitWsAux [] s.data).map String.mk

/-- The error message of the missing-required-keys `RuntimeError`. -/
def missingKeysMsg (config_path : String) : String :=
  "Config file " ++ config_path ++ " does not contain all required keys: " ++ requiredKeysRepr

/-- The error message of the empty-value `RuntimeError`. -/
def invalidValueMsg (k v : String) : String :=
  "Config key " ++ k ++ " has invalid value: " ++ v

/-- The `ValueError` message raised by `semver` on an unparseable version. -/
def semverErrorMsg (version : String) : String :=
  version ++ " is not valid SemVer string"

/-- Validation and construction part of `get_target_config`, acting on the
already-parsed map: required keys must be present, required values must be
non-empty (checked in insertion order), the release must parse as a
semantic version; on success the `TargetConfig` is assembled, splitting the
package and disabled-service values on whitespace. -/
def targetConfigFromRaw (config_path : String) (c : List (String × String)) :
    Except String TargetConfig :=
  if !(REQUIRED_CONFIG_KEYS.all (fun k => hasKey c k)) then
    .error (missingKeysMsg config_path)
  else
    match c.find? (fun p => REQUIRED_CONFIG_KEYS.contains p.1 && p.2 == "") with
    | some p => .error (invalidValueMsg p.1 p.2)
    | none =>
      match parse_version_info (pyGetD c "OPENWRT_RELEASE") with
      | none => .error (semverErrorMsg (pyGetD c "OPENWRT_RELEASE"))
      | some release =>
        .ok
          { profile := pyGetD c "OPENWRT_PROFILE"
            release := release
            target := pyGetD c "OPENWRT_TARGET"
            subtarget := pyGetD c "OPENWRT_SUBTARGET"
            packages := pySplit (pyGetD c "OPENWRT_PACKAGES")
            disabled_services :=
              if !(hasKey c "OPENWRT_DISABLED_SERVICES") then []
              else pySplit (pyGetD c "OPENWRT_DISABLED_SERVICES") }

/-- Embedding of `get_target_config`.  The file system is modelled by the
optional file contents: `none` means `open` raises `FileNotFoundError`
(swallowed, leaving the map empty).  The guard
`not (config_path or os.path.exists(config_path))` of the source reduces to
`config_path == ""`: a non-empty path short-circuits the `or`, and for the
empty path `os.path.exists("")` is `False` (and `open("")` could only raise
`FileNotFoundError` anyway). -/
def get_target_config (config_path : String) (file : Option String) :
    Except String TargetConfig :=
  if config_path = "" then .error "Config file not found"
  else
    let c := match file with
      | none => []
      | some contents => parseConfig contents
    targetConfigFromRaw config_path c

/-- Whether a configuration-loading result is a failure. -/
def exceptIsError : Except String TargetConfig → Bool
  | .error _ => true
  | .ok _ => false

/-- The download-URL template as worded by the specification:
`https://downloads.openwrt.org/releases/{release_str}/targets/{target}/{subtarget}/openwrt-imagebuilder-{release_str}-{target}-{subtarget}.Linux-x86_64.tar.{ext}`
with `ext` `zst` when `release.major >= 24` and `xz` otherwise. -/
def specImagebuilderUrl (tc : TargetConfig) : String :=
  "https://downloads.openwrt.org/releases/" ++ tc.release_str ++
  "/targets/" ++ tc.target ++ "/" ++ tc.subtarget ++
  "/openwrt-imagebuilder-" ++ tc.release_str ++ "-" ++ tc.target ++ "-" ++ tc.subtarget ++
  ".Linux-x86_64.tar." ++ (if 24 ≤ tc.release.major then "zst" else "xz")

/-- Decompose a character list into maximal runs of characters agreeing on
the whitespace predicate (`cur` holds the current run reversed). -/
def chunkRunsAux (cur : List Char) : List Char → List (List Char)
  | [] => if cur.isEmpty then [] else [cur.reverse]
  | c :: cs =>
    match cur with
    | [] => chunkRunsAux [c] cs
    | d :: _ =>
      if isWs c = isWs d then chunkRunsAux (c :: cur) cs
      else cur.reverse :: chunkRunsAux [c] cs

/-- Maximal runs of whitespace/non-whitespace characters. -/
def chunkRuns (l : List Char) : List (List Char) :=
  chunkRunsAux [] l

/-- The whitespace normalisation described by the (amended) specification:
trim, then replace every maximal internal run of two or more whitespace
characters by one space, leaving isolated whitespace characters alone. -/
def specStripWhitespace (l : List Char) : List Char :=
  ((chunkRuns (pyStrip l)).map fun r =>
    if 2 ≤ r.length && r.all isWs then [' '] else r).flatten

/-- The five-line configuration file of claim C1. -/
def c1Contents : String :=
  "OPENWRT_PROFILE=generic\nOPENWRT_RELEASE=24.10.0\nOPENWRT_TARGET=x86\nOPENWRT_SUBTARGET=64\nOPENWRT_PACKAGES=luci curl\n"

/-- The `TargetConfig` produced from the claim-C1 file. -/
def c1Target : TargetConfig :=
  { profile := "generic", release := ⟨24, 10, 0, none, none⟩, target := "x86",
    subtarget := "64", packages := ["luci", "curl"], disabled_services := [] }

/-- A parsed map with every required key present but an empty
`OPENWRT_PROFILE` value (claim C2). -/
def c2EmptyProfileMap : List (String × String) :=
  [("OPENWRT_PROFILE", ""), ("OPENWRT_RELEASE", "24.10.0"), ("OPENWRT_TARGET", "x86"),
   ("OPENWRT_SUBTARGET", "64"), ("OPENWRT_PACKAGES", "luci")]

/-- A parsed map missing the required key `OPENWRT_PACKAGES` (claim C2
witness). -/
def c2MissingKeyMap : List (String × String) :=
  [("OPENWRT_PROFILE", "generic"), ("OPENWRT_RELEASE", "24.10.0"),
   ("OPENWRT_TARGET", "x86"), ("OPENWRT_SUBTARGET", "64")]

/-- A file whose single line is a full-line comment (first character `#`)
without a trailing newline, containing a `?` followed by key=value text
(claim C5). -/
def c5Contents : String := "#x?OPENWRT_PROFILE=evil"

/-- A line whose value is delimited by matching single quotes but whose
interior contains a double quote before a run of two tabs (claim C6). -/
def c6Unquoted : String := "\x27a\"x\t\ty\x27"

/-- A configuration file using a Bash-style multi-line quoted
`OPENWRT_PACKAGES` value (claim C6). -/
def c6Contents : String :=
  "OPENWRT_PROFILE=generic\nOPENWRT_RELEASE=24.10.0\nOPENWRT_TARGET=x86\nOPENWRT_SUBTARGET=64\nOPENWRT_PACKAGES=\"pkg1 \\\npkg2\"\n"

/-- The `TargetConfig` produced from the claim-C6 file. -/
def c6Target : TargetConfig :=
  { profile := "generic", release := ⟨24, 10, 0, none, none⟩, target := "x86",
    subtarget := "64", packages := ["pkg1", "pkg2"], disabled_services := [] }

/-- A file whose value contains a single interior tab (claim C7). -/
def c7TabContents : String := "A=x\ty\n"

/-- A file assigning the same key on two lines (claim C7). -/
def c7DupContents : String := "A=1\nA=2\n"

/-- A parsed map with all required keys, valid release, and no
`OPENWRT_DISABLED_SERVICES` key (claim C8 witness). -/
def c8Map : List (String × String) :=
  [("OPENWRT_PROFILE", "generic"), ("OPENWRT_RELEASE", "24.10.0"), ("OPENWRT_TARGET", "x86"),
   ("OPENWRT_SUBTARGET", "64"), ("OPENWRT_PACKAGES", "luci curl")]

/-- A `TargetConfig` whose release carries pre-release metadata (claim C9
witness). -/
def c9Target : TargetConfig :=
  { profile := "generic", release := ⟨24, 10, 0, some "rc2", none⟩, target := "x86",
    subtarget := "64", packages := ["luci"], disabled_services := [] }

/-- A `TargetConfig` with release major 23 (claim C3 witness). -/
def c3Target23 : TargetConfig :=
  { profile := "generic", release := ⟨23, 5, 2, none, none⟩, target := "x86",
    subtarget := "64", packages := ["luci"], disabled_services := [] }

/-- A configuration file exercising whitespace splitting of packages and
disabled services (claim C10 witness). -/
def c10Contents : String :=
  "OPENWRT_PROFILE=generic\nOPENWRT_RELEASE=24.10.0\nOPENWRT_TARGET=x86\nOPENWRT_SUBTARGET=64\nOPENWRT_PACKAGES=luci  curl\nOPENWRT_DISABLED_SERVICES=dnsmasq odhcpd\n"

/-- The `TargetConfig` produced from the claim-C10 witness file. -/
def c10Target : TargetConfig :=
  { profile := "generic", release := ⟨24, 10, 0, none, none⟩, target := "x86",
    subtarget := "64", packages := ["luci", "curl"],
    disabled_services := ["dnsmasq", "odhcpd"] }

/-! Theorems about the claims. -/

/-- C1 (counterexample): on the five-line file, the pipeline succeeds, but
`image_name("imagebuilder")` is not `"imagebuilder-24.10.0-x86-64"` as
claimed — the source prefixes `"openwrt/"`. -/
theorem c1_image_name_counterexample :
    get_target_config "target.conf" (some c1Contents) = .ok c1Target ∧
    c1Target.image_name "imagebuilder" ≠ "imagebuilder-24.10.0-x86-64" :=
  ⟨rfl, by decide⟩

/-- C1 (amended): for the concrete five-line input file the parse-and-
construct pipeline succeeds and yields the `TargetConfig` with profile
`generic`, release 24.10.0, target `x86`, subtarget `64`, packages
`[luci, curl]`, no disabled services, `release_str = "24.10.0"`, an
imagebuilder URL ending in `.tar.zst`, and
`image_name("imagebuilder") = "openwrt/imagebuilder-24.10.0-x86-64"`. -/
theorem c1_pipeline :
    get_target_config "target.conf" (some c1Contents) = .ok c1Target ∧
    c1Target.profile = "generic" ∧
    c1Target.release = ⟨24, 10, 0, none, none⟩ ∧
    c1Target.target = "x86" ∧
    c1Target.subtarget = "64" ∧
    c1Target.packages = ["luci", "curl"] ∧
    c1Target.disabled_services = [] ∧
    c1Target.release_str = "24.10.0" ∧
    (∃ p : String, c1Target.imagebuilder_url = p ++ ".tar.zst") ∧
    c1Target.image_name "imagebuilder" = "openwrt/imagebuilder-24.10.0-x86-64" := by
  refine ⟨rfl, rfl, rfl, rfl, rfl, rfl, rfl, by decide,
    ⟨"https://downloads.openwrt.org/releases/24.10.0/targets/x86/64/openwrt-imagebuilder-24.10.0-x86-64.Linux-x86_64", by decide⟩,
    by decide⟩

/-- C4 (counterexample): at the empty path — a path whose file does not
exist (`os.path.exists("")` is false) — the call fails with the
file-not-found error, not the required-keys validation error. -/
theorem c4_empty_path_counterexample :
    get_target_config "" none = .error "Config file not found" ∧
    ("Config file not found" : String) ≠ missingKeysMsg "" :=
  ⟨rfl, by decide⟩

/-- C4 (amended): for every non-empty path whose file does not exist, the
parse step yields an empty map and the overall call fails with the
required-keys configuration error, never with a file-not-found error. -/
theorem c4_missing_file_validation_error (path : String) (h : ¬ path = "") :
    get_target_config path none = .error (missingKeysMsg path) := by
  unfold get_target_config
  rw [if_neg h]
  rfl

/-- C4 witness: the amended theorem at the concrete path `missing.conf`. -/
theorem c4_missing_file_validation_error_witness :
    get_target_config "missing.conf" none = .error (missingKeysMsg "missing.conf") :=
  c4_missing_file_validation_error "missing.conf" (by decide)

/-- C5 (code bug): the line `#x?OPENWRT_PROFILE=evil`, a full-line comment
(first non-whitespace character `#`) at the end of the file without a
trailing newline, does not merely contribute no key: the slipped character
class `[\r?\n]` of `re.sub(r"(^#.*[\r?\n])", ...)` lets the backtracking
match stop at the `?`, leaving `OPENWRT_PROFILE=evil`, which is then stored
as a key-value pair. -/
theorem c5_comment_line_creates_key :
    c5Contents.data.head? = some '#' ∧
    parseConfig c5Contents = [("OPENWRT_PROFILE", "evil")] :=
  ⟨rfl, by decide⟩

/-- C6 (counterexample): in the text `'a"x<tab><tab>y'`, delimited by
matching single quotes, the quote-normalisation pass pairs the opening
single quote with the interior double quote instead, so the run of two tab
characters between the matching single quotes survives uncollapsed. -/
theorem c6_matching_quotes_not_collapsed :
    c6Unquoted.data.head? = some '\x27' ∧
    c6Unquoted.data.getLast? = some '\x27' ∧
    collapseQuoted c6Unquoted.data = c6Unquoted.data ∧
    ['\t', '\t'] <:+: collapseQuoted c6Unquoted.data :=
  ⟨rfl, by decide, by decide, by decide⟩

/-- C7 (counterexample): the line `A=x<tab>y` matches the key-value
pattern, yet the stored value keeps the single interior tab — it is
`"x\ty"`, not `"x y"` as the claim (collapse of every whitespace run to a
space) would require, because `re.sub(r"\s\s+", " ", ...)` only rewrites
runs of length at least two. -/
theorem c7_single_tab_not_collapsed :
    pyGet (parseConfig c7TabContents) "A" = some "x\ty" ∧
    ("x\ty" : String) ≠ "x y" :=
  ⟨by decide, by decide⟩

/-- The `str.format` call of `imagebuilder_url` on the template
`IMAGEBUILDER_BASE_URL`, evaluated symbolically in its seven arguments. -/
theorem pyFormat_imagebuilder_template (a b c d e f g : List Char) :
    pyFormat IMAGEBUILDER_BASE_URL.data [a, b, c, d, e, f, g] =
      "https://downloads.openwrt.org/releases/".data ++ (a ++ ("/targets/".data ++
      (b ++ ("/".data ++ (c ++ ("/openwrt-imagebuilder-".data ++ (d ++ ("-".data ++
      (e ++ ("-".data ++ (f ++ (".Linux-x86_64.tar.".data ++ (g ++ []))))))))))))) :=
  rfl

/-- The computed URL coincides with the specification template. -/
theorem imagebuilder_url_eq_spec (tc : TargetConfig) :
    tc.imagebuilder_url = specImagebuilderUrl tc := by
  unfold TargetConfig.imagebuilder_url specImagebuilderUrl
  apply String.ext
  simp only [String.data_append]
  rw [pyFormat_imagebuilder_template]
  simp [List.append_assoc]

/-- C3: for every `TargetConfig`, `imagebuilder_url` equals the templated
URL `https://downloads.openwrt.org/releases/{release_str}/targets/{target}/{subtarget}/openwrt-imagebuilder-{release_str}-{target}-{subtarget}.Linux-x86_64.tar.{ext}`
with `ext = zst` when `release.major >= 24` and `xz` otherwise; in
particular for major 23 it ends in `.tar.xz` and for major at least 24 in
`.tar.zst`. -/
theorem c3_imagebuilder_url_template (tc : TargetConfig) :
    tc.imagebuilder_url = specImagebuilderUrl tc ∧
    (tc.release.major = 23 → ∃ p : String, tc.imagebuilder_url = p ++ ".tar.xz") ∧
    (24 ≤ tc.release.major → ∃ p : String, tc.imagebuilder_url = p ++ ".tar.zst") := by
  refine ⟨imagebuilder_url_eq_spec tc, fun hmaj => ?_, fun hmaj => ?_⟩
  · refine ⟨"https://downloads.openwrt.org/releases/" ++ tc.release_str ++
      "/targets/" ++ tc.target ++ "/" ++ tc.subtarget ++
      "/openwrt-imagebuilder-" ++ tc.release_str ++ "-" ++ tc.target ++ "-" ++ tc.subtarget ++
      ".Linux-x86_64", ?_⟩
    rw [imagebuilder_url_eq_spec]
    unfold specImagebuilderUrl
    rw [hmaj]
    norm_num
    apply String.ext
    simp [String.data_append, List.append_assoc]
  · refine ⟨"https://downloads.openwrt.org/releases/" ++ tc.release_str ++
      "/targets/" ++ tc.target ++ "/" ++ tc.subtarget ++
      "/openwrt-imagebuilder-" ++ tc.release_str ++ "-" ++ tc.target ++ "-" ++ tc.subtarget ++
      ".Linux-x86_64", ?_⟩
    rw [imagebuilder_url_eq_spec]
    unfold specImagebuilderUrl
    rw [if_pos hmaj]
    apply String.ext
    simp [String.data_append, List.append_assoc]

/-- C3 witness: the threshold law at concrete releases 23.5.2 and
24.10.0. -/
theorem c3_imagebuilder_url_template_witness :
    (∃ p : String, c3Target23.imagebuilder_url = p ++ ".tar.xz") ∧
    (∃ p : String, c1Target.imagebuilder_url = p ++ ".tar.zst") :=
  ⟨(c3_imagebuilder_url_template c3Target23).2.1 rfl,
   (c3_imagebuilder_url_template c1Target).2.2 (by decide)⟩

/-- C2 (counterexample): on a map with every required key present but an
empty `OPENWRT_PROFILE`, construction fails as claimed, yet the error
message does not enumerate the full set of required keys (for instance
`OPENWRT_RELEASE` does not occur in it). -/
theorem c2_message_counterexample :
    targetConfigFromRaw "openwrt.conf" c2EmptyProfileMap =
      .error (invalidValueMsg "OPENWRT_PROFILE" "") ∧
    ¬ ("OPENWRT_RELEASE".data <:+: (invalidValueMsg "OPENWRT_PROFILE" "").data) :=
  ⟨rfl, by decide⟩

set_option maxRecDepth 4000 in
/-- C2 (amended): construction from a parsed map fails exactly when a
required key is absent, or a required key maps to the empty value, or the
release value does not parse as a semantic version; the missing-key failure
carries the message enumerating every required key, while the other
failures name the offending key/value or version only. -/
theorem c2_construction_failure (path : String) (c : List (String × String)) :
    (exceptIsError (targetConfigFromRaw path c) = true ↔
      (∃ k, k ∈ REQUIRED_CONFIG_KEYS ∧ hasKey c k = false) ∨
      (∃ kv, kv ∈ c ∧ kv.1 ∈ REQUIRED_CONFIG_KEYS ∧ kv.2 = "") ∨
      parse_version_info (pyGetD c "OPENWRT_RELEASE") = none) ∧
    ((∃ k, k ∈ REQUIRED_CONFIG_KEYS ∧ hasKey c k = false) →
      targetConfigFromRaw path c = .error (missingKeysMsg path)) ∧
    (∀ k, k ∈ REQUIRED_CONFIG_KEYS → k.data <:+: (missingKeysMsg path).data) := by
  have hmsg : ∀ k, k ∈ REQUIRED_CONFIG_KEYS → k.data <:+: (missingKeysMsg path).data := by
    intro k hk
    have h1 : k.data <:+: requiredKeysRepr.data := by
      simp only [REQUIRED_CONFIG_KEYS, List.mem_cons, List.not_mem_nil, or_false] at hk
      rcases hk with rfl | rfl | rfl | rfl | rfl <;> decide
    have h2 : requiredKeysRepr.data <:+ (missingKeysMsg path).data := by
      simp only [missingKeysMsg, String.data_append]
      exact List.suffix_append _ _
    exact h1.trans h2.isInfix
  have hmiss : (∃ k, k ∈ REQUIRED_CONFIG_KEYS ∧ hasKey c k = false) →
      targetConfigFromRaw path c = .error (missingKeysMsg path) := by
    rintro ⟨k, hk, hfalse⟩
    have hcond : (!(REQUIRED_CONFIG_KEYS.all fun k => hasKey c k)) = true := by
      simp only [Bool.not_eq_true', List.all_eq_false]
      exact ⟨k, hk, by simp [hfalse]⟩
    unfold targetConfigFromRaw
    simp [hcond]
  refine ⟨?_, hmiss, hmsg⟩
  by_cases hall : (REQUIRED_CONFIG_KEYS.all fun k => hasKey c k) = true
  · have hnomiss : ¬ (∃ k, k ∈ REQUIRED_CONFIG_KEYS ∧ hasKey c k = false) := by
      rintro ⟨k, hk, hfalse⟩
      rw [List.all_eq_true] at hall
      have := hall k hk
      simp [hfalse] at this
    unfold targetConfigFromRaw
    rw [hall]
    simp only [Bool.not_true, Bool.false_eq_true, if_false]
    cases hfind : c.find? (fun p => REQUIRED_CONFIG_KEYS.contains p.1 && p.2 == "") with
    | some p =>
      have hmem := List.mem_of_find?_eq_some hfind
      have hpred := List.find?_some hfind
      simp only [Bool.and_eq_true, List.elem_iff, decide_eq_true_eq, beq_iff_eq] at hpred
      simp only [exceptIsError, true_iff]
      exact Or.inr (Or.inl ⟨p, hmem, hpred.1, hpred.2⟩)
    | none =>
      have hnoempty : ¬ (∃ kv, kv ∈ c ∧ kv.1 ∈ REQUIRED_CONFIG_KEYS ∧ kv.2 = "") := by
        rintro ⟨kv, hkv, hreq, hempty⟩
        have := List.find?_eq_none.mp hfind kv hkv
        simp [List.contains, List.elem_iff, hreq, hempty] at this
      cases hv : parse_version_info (pyGetD c "OPENWRT_RELEASE") with
      | none => simp [exceptIsError, hnomiss, hnoempty, hv]
      | some v => simp [exceptIsError, hnomiss, hnoempty, hv]
  · have hcond : (!(REQUIRED_CONFIG_KEYS.all fun k => hasKey c k)) = true := by
      simp [hall]
    have hex : ∃ k, k ∈ REQUIRED_CONFIG_KEYS ∧ hasKey c k = false := by
      rw [Bool.not_eq_true', List.all_eq_false] at hcond
      obtain ⟨k, hk, hfalse⟩ := hcond
      exact ⟨k, hk, by simpa using hfalse⟩
    unfold targetConfigFromRaw
    simp [hcond, exceptIsError, hex]

/-- C2 witness: the amended theorem applied to a concrete map missing
`OPENWRT_PACKAGES`. -/
theorem c2_construction_failure_witness :
    exceptIsError (targetConfigFromRaw "openwrt.conf" c2MissingKeyMap) = true :=
  (c2_construction_failure "openwrt.conf" c2MissingKeyMap).1.mpr
    (Or.inl ⟨"OPENWRT_PACKAGES", by decide, by decide⟩)

/-- C8: when `OPENWRT_DISABLED_SERVICES` is absent from the map but every
required key is present with a non-empty value and the release parses,
construction succeeds and `disabled_services` is the empty sequence. -/
theorem c8_optional_disabled_services (path : String) (c : List (String × String))
    (habs : hasKey c "OPENWRT_DISABLED_SERVICES" = false)
    (hreq : ∀ k, k ∈ REQUIRED_CONFIG_KEYS → hasKey c k = true)
    (hne : ∀ kv, kv ∈ c → kv.1 ∈ REQUIRED_CONFIG_KEYS → kv.2 ≠ "")
    (v : VersionInfo) (hv : parse_version_info (pyGetD c "OPENWRT_RELEASE") = some v) :
    ∃ tc, targetConfigFromRaw path c = .ok tc ∧ tc.disabled_services = [] := by
  have hall : (REQUIRED_CONFIG_KEYS.all fun k => hasKey c k) = true :=
    List.all_eq_true.mpr (fun k hk => hreq k hk)
  have hfind : c.find? (fun p => REQUIRED_CONFIG_KEYS.contains p.1 && p.2 == "") = none := by
    rw [List.find?_eq_none]
    intro kv hkv
    intro hcontr
    rw [Bool.and_eq_true] at hcontr
    have h1 : kv.1 ∈ REQUIRED_CONFIG_KEYS := by
      have := hcontr.1
      simpa [List.contains, List.elem_iff] using this
    have h2 : kv.2 = "" := by simpa using hcontr.2
    exact hne kv hkv h1 h2
  unfold targetConfigFromRaw
  simp only [hall, Bool.not_true, Bool.false_eq_true, if_false, hfind, hv]
  exact ⟨_, rfl, by simp [habs]⟩

/-- C8 witness: the theorem applied to a concrete map without the optional
key. -/
theorem c8_optional_disabled_services_witness :
    ∃ tc, targetConfigFromRaw "openwrt.conf" c8Map = .ok tc ∧ tc.disabled_services = [] :=
  c8_optional_disabled_services "openwrt.conf" c8Map (by decide) (by decide)
    (by decide) ⟨24, 10, 0, none, none⟩ (by decide)

/-- C9: for a release that parsed successfully as a semantic version,
`release_str` is exactly `{major}.{minor}.{patch}` and agrees with the
`release_str` computed after erasing all pre-release and build metadata. -/
theorem c9_release_str_ignores_metadata (s : String) (v : VersionInfo) (tc : TargetConfig)
    (hparse : parse_version_info s = some v) (hrel : tc.release = v) :
    tc.release_str = Nat.repr v.major ++ "." ++ Nat.repr v.minor ++ "." ++ Nat.repr v.patch ∧
    tc.release_str =
      TargetConfig.release_str { tc with release := ⟨v.major, v.minor, v.patch, none, none⟩ } := by
  subst hrel
  exact ⟨rfl, rfl⟩

/-- C9 witness: the input `24.10.0-rc2` parses with pre-release metadata
and still yields `release_str = "24.10.0"`. -/
theorem c9_release_str_ignores_metadata_witness :
    parse_version_info "24.10.0-rc2" = some ⟨24, 10, 0, some "rc2", none⟩ ∧
    c9Target.release_str = "24.10.0" := by
  refine ⟨by decide, ?_⟩
  have h := c9_release_str_ignores_metadata "24.10.0-rc2" ⟨24, 10, 0, some "rc2", none⟩
    c9Target (by decide) rfl
  exact h.1.trans (by decide)

/-- A successful construction always draws `packages` from
whitespace-splitting, and `disabled_services` either defaults to `[]` or is
whitespace-split as well. -/
theorem fromRaw_ok_fields (path : String) (c : List (String × String)) (tc : TargetConfig)
    (h : targetConfigFromRaw path c = .ok tc) :
    tc.packages = pySplit (pyGetD c "OPENWRT_PACKAGES") ∧
    (tc.disabled_services = [] ∨
      tc.disabled_services = pySplit (pyGetD c "OPENWRT_DISABLED_SERVICES")) := by
  unfold targetConfigFromRaw at h
  split at h
  · exact absurd h (by simp)
  · split at h
    · exact absurd h (by simp)
    · split at h
      · exact absurd h (by simp)
      · simp only [Except.ok.injEq] at h
        subst h
        refine ⟨rfl, ?_⟩
        by_cases hd : (!hasKey c "OPENWRT_DISABLED_SERVICES") = true
        · left
          simp [hd]
        · right
          simp only [hd, Bool.false_eq_true, if_false]

/-- Every word of a Python `str.split()` is nonempty and whitespace-free
(auxiliary state-machine invariant). -/
theorem splitWsAux_words (cs : List Char) : ∀ cur, (∀ ch ∈ cur, isWs ch = false) →
    ∀ w ∈ splitWsAux cur cs, w ≠ [] ∧ ∀ ch ∈ w, isWs ch = false := by
  induction cs with
  | nil =>
    intro cur hcur w hw
    by_cases hc : cur.isEmpty
    · simp [splitWsAux, hc] at hw
    · simp [splitWsAux, hc] at hw
      subst hw
      constructor
      · simp [List.isEmpty_iff] at hc
        simpa using hc
      · intro ch hch
        exact hcur ch (List.mem_reverse.mp hch)
  | cons c cs ih =>
    intro cur hcur w hw
    by_cases hws : isWs c
    · by_cases hc : cur.isEmpty
      · simp only [splitWsAux, hws, if_true, hc] at hw
        exact ih [] (by simp) w hw
      · simp only [splitWsAux, hws, if_true, hc, Bool.false_eq_true, if_false,
          List.mem_cons] at hw
        rcases hw with heq | hw
        · subst heq
          constructor
          · simp [List.isEmpty_iff] at hc
            simpa using hc
          · intro ch hch
            exact hcur ch (List.mem_reverse.mp hch)
        · exact ih [] (by simp) w hw
    · simp only [splitWsAux, hws, if_false] at hw
      refine ih (c :: cur) ?_ w hw
      intro ch hch
      rcases List.mem_cons.mp hch with rfl | hch
      · simpa using hws
      · exact hcur ch hch

/-- Every word of a Python `str.split()` is a nonempty whitespace-free
string. -/
theorem pySplit_words (s : String) :
    ∀ w ∈ pySplit s, w ≠ "" ∧ ∀ ch ∈ w.data, isWs ch = false := by
  intro w hw
  obtain ⟨l, hl, rfl⟩ := List.mem_map.mp hw
  have hmain := splitWsAux_words s.data [] (by simp) l hl
  refine ⟨?_, ?_⟩
  · intro hcontr
    apply hmain.1
    have hdata : (String.mk l).data = ("" : String).data := by rw [hcontr]
    simpa using hdata
  · intro ch hch
    exact hmain.2 ch (by simpa using hch)

/-- C10: every element of `packages` and of `disabled_services` of a
successfully constructed `TargetConfig` is a non-empty string containing no
whitespace characters. -/
theorem c10_fields_whitespace_free (path : String) (file : Option String) (tc : TargetConfig)
    (h : get_target_config path file = .ok tc) :
    ∀ s, s ∈ tc.packages ∨ s ∈ tc.disabled_services →
      s ≠ "" ∧ ∀ ch ∈ s.data, isWs ch = false := by
  unfold get_target_config at h
  split at h
  · exact absurd h (by simp)
  · obtain ⟨hp, hd⟩ := fromRaw_ok_fields path _ tc h
    intro s hs
    rcases hs with hs | hs
    · rw [hp] at hs
      exact pySplit_words _ s hs
    · rcases hd with hd | hd
      · rw [hd] at hs
        simp at hs
      · rw [hd] at hs
        exact pySplit_words _ s hs

/-- C10 witness: the theorem applied to a concrete parsed file, at the
disabled service `dnsmasq`. -/
theorem c10_fields_whitespace_free_witness :
    ("dnsmasq" : String) ≠ "" ∧ ∀ ch ∈ ("dnsmasq" : String).data, isWs ch = false :=
  c10_fields_whitespace_free "openwrt.conf" (some c10Contents) c10Target rfl
    "dnsmasq" (Or.inr (by decide))

/-- Evaluation of the quote-normalisation scanner after an opening quote:
the accumulated and remaining non-quote characters up to the next quote
form the match body; an empty body makes the regex restart at the closing
quote, otherwise the body is run-collapsed in place. -/
theorem cqAux_open (q₂ : Char) (hq₂ : isQuote q₂ = true) (rest : List Char) :
    ∀ (body : List Char) (q : Char) (acc : List Char),
      (∀ ch ∈ body, isQuote ch = false) →
      collapseQuotedAux (some (q, acc)) (body ++ q₂ :: rest) =
        (if (acc.reverse ++ body).isEmpty then q :: collapseQuotedAux (some (q₂, [])) rest
         else q :: (collapseRuns (acc.reverse ++ body) ++ q₂ :: collapseQuotedAux none rest)) := by
  intro body
  induction body with
  | nil =>
    intro q acc hbody
    simp only [List.nil_append, List.append_nil, collapseQuotedAux, hq₂, if_true]
    by_cases hacc : acc.isEmpty
    · have h1 : acc = [] := List.isEmpty_iff.mp hacc
      subst h1
      simp [collapseQuotedAux, hq₂]
    · have h1 : acc ≠ [] := fun h => hacc (by simp [h])
      have h2 : acc.reverse.isEmpty = false := by
        simp [List.isEmpty_iff, h1]
      have h3 : acc.isEmpty = false := by
        simp [List.isEmpty_iff, h1]
      simp [collapseQuotedAux, hq₂, h2, h3]
  | cons c body ih =>
    intro q acc hbody
    have hc : isQuote c = false := hbody c (by simp)
    have hrw : collapseQuotedAux (some (q, acc)) ((c :: body) ++ q₂ :: rest) =
        collapseQuotedAux (some (q, c :: acc)) (body ++ q₂ :: rest) := by
      simp [collapseQuotedAux, hc]
    rw [hrw, ih q (c :: acc) (fun ch hch => hbody ch (by simp [hch]))]
    have hl : (c :: acc).reverse ++ body = acc.reverse ++ (c :: body) := by
      simp
    rw [hl]

/-- C6 (amended): inside every leftmost-paired quoted region — an opening
quote (single or double), a nonempty quote-free body, and the next
following quote character, which need not match the opener — every run of
backslash/carriage-return/newline/whitespace characters is collapsed to a
single space; in particular the two physical lines
`OPENWRT_PACKAGES="pkg1 \` and `pkg2"` parse as
`OPENWRT_PACKAGES="pkg1 pkg2"` and the packages field splits to
`["pkg1", "pkg2"]`. -/
theorem c6_quoted_run_collapse :
    (∀ (q₁ q₂ : Char) (body rest : List Char), isQuote q₁ = true → isQuote q₂ = true →
      body ≠ [] → (∀ ch ∈ body, isQuote ch = false) →
      collapseQuoted (q₁ :: body ++ q₂ :: rest) =
        q₁ :: (collapseRuns body ++ q₂ :: collapseQuoted rest)) ∧
    get_target_config "openwrt.conf" (some c6Contents) = .ok c6Target := by
  constructor
  · intro q₁ q₂ body rest hq₁ hq₂ hbody hnq
    unfold collapseQuoted
    have h1 : collapseQuotedAux none (q₁ :: body ++ q₂ :: rest) =
        collapseQuotedAux (some (q₁, [])) (body ++ q₂ :: rest) := by
      simp [collapseQuotedAux, hq₁]
    rw [h1, cqAux_open q₂ hq₂ rest body q₁ [] hnq]
    have hne : (([] : List Char).reverse ++ body).isEmpty = false := by
      simp [List.isEmpty_iff, hbody]
    rw [hne]
    simp
  · rfl

/-- C6 witness: the general collapse law at the concrete quoted body
`pkg1 \<newline>pkg2`. -/
theorem c6_quoted_run_collapse_witness :
    collapseQuoted ('"' :: "pkg1 \\\npkg2".data ++ '"' :: []) =
      '"' :: (collapseRuns "pkg1 \\\npkg2".data ++ '"' :: collapseQuoted []) :=
  c6_quoted_run_collapse.1 '"' '"' "pkg1 \\\npkg2".data [] rfl rfl
    (by decide) (by decide)


/-- After a collapsed run has been entered, the scanner skips the rest of
the whitespace run. -/
theorem cwAux_true (cs : List Char) :
    collapseWsAux true cs = collapseWsAux false (cs.dropWhile isWs) := by
  induction cs with
  | nil => rfl
  | cons c cs ih =>
    by_cases h : isWs c
    · rw [show collapseWsAux true (c :: cs) = collapseWsAux true cs by simp [collapseWsAux, h]]
      rw [ih]
      rw [List.dropWhile_cons_of_pos (by simpa using h)]
    · rw [List.dropWhile_cons_of_neg (by simpa using h)]
      have h1 : collapseWsAux true (c :: cs) = c :: collapseWsAux false cs := by
        simp [collapseWsAux, h]
      have h2 : collapseWsAux false (c :: cs) = c :: collapseWsAux false cs := by
        cases cs with
        | nil => simp [collapseWsAux, h]
        | cons d ds => simp [collapseWsAux, h]
      rw [h1, h2]

/-- Dropping whitespace from a whitespace run followed by a boundary. -/
theorem dropWhile_ws_all (r cs : List Char) (hr : ∀ c ∈ r, isWs c = true)
    (hcs : cs = [] ∨ ∃ d ds, cs = d :: ds ∧ isWs d = false) :
    (r ++ cs).dropWhile isWs = cs := by
  induction r with
  | nil =>
    rcases hcs with rfl | ⟨d, ds, rfl, hd⟩
    · rfl
    · exact List.dropWhile_cons_of_neg (by simp [hd])
  | cons b r ih =>
    rw [List.cons_append, List.dropWhile_cons_of_pos (by simp [hr b (by simp)])]
    exact ih (fun c hc => hr c (by simp [hc]))

/-- Behaviour of the `\s\s+` substitution on a leading maximal whitespace
run: a lone whitespace character is kept, a longer run becomes one space. -/
theorem peel_ws (a : Char) (r cs : List Char) (ha : isWs a = true)
    (hr : ∀ c ∈ r, isWs c = true)
    (hcs : cs = [] ∨ ∃ d ds, cs = d :: ds ∧ isWs d = false) :
    collapseWsAux false (a :: r ++ cs) =
      (if r.isEmpty then [a] else [' ']) ++ collapseWsAux false cs := by
  cases r with
  | nil =>
    rcases hcs with rfl | ⟨d, ds, rfl, hd⟩
    · simp [collapseWsAux]
    · simp [collapseWsAux, ha, hd]
  | cons b r' =>
    have hb : isWs b = true := hr b (by simp)
    have h1 : collapseWsAux false (a :: (b :: r') ++ cs) =
        ' ' :: collapseWsAux true ((b :: r') ++ cs) := by
      simp [collapseWsAux, ha, hb]
    rw [h1, cwAux_true, dropWhile_ws_all (b :: r') cs hr hcs]
    simp

/-- Non-whitespace characters pass through the `\s\s+` substitution
unchanged. -/
theorem peel_nonws (r cs : List Char) (hr : ∀ c ∈ r, isWs c = false) :
    collapseWsAux false (r ++ cs) = r ++ collapseWsAux false cs := by
  induction r with
  | nil => rfl
  | cons b r ih =>
    have hb : isWs b = false := hr b (by simp)
    have h1 : collapseWsAux false ((b :: r) ++ cs) = b :: collapseWsAux false (r ++ cs) := by
      cases hrw : r ++ cs with
      | nil => simp [collapseWsAux, hb, hrw]
      | cons d ds => simp [collapseWsAux, hb, hrw]
    rw [h1, ih (fun c hc => hr c (by simp [hc]))]
    rfl

/-- The run-decomposition scanner peels one maximal homogeneous run. -/
theorem chunkRunsAux_peel (b : Bool) :
    ∀ (r : List Char) (cur cs : List Char), cur ≠ [] → (∀ c ∈ cur, isWs c = b) →
      (∀ c ∈ r, isWs c = b) →
      (cs = [] ∨ ∃ d ds, cs = d :: ds ∧ isWs d ≠ b) →
      chunkRunsAux cur (r ++ cs) = (cur.reverse ++ r) :: chunkRuns cs := by
  intro r
  induction r with
  | nil =>
    intro cur cs hcur hcurb hrb hcs
    rcases hcs with rfl | ⟨d, ds, rfl, hd⟩
    · cases cur with
      | nil => exact absurd rfl hcur
      | cons e cur' => simp [chunkRunsAux, chunkRuns]
    · cases cur with
      | nil => exact absurd rfl hcur
      | cons e cur' =>
        have he : isWs e = b := hcurb e (by simp)
        have hne : ¬ (isWs d = isWs e) := by
          rw [he]
          exact hd
        simp only [List.nil_append, chunkRunsAux, hne, if_false, chunkRuns]
        simp [List.append_nil]
  | cons b' r' ih =>
    intro cur cs hcur hcurb hrb hcs
    cases cur with
    | nil => exact absurd rfl hcur
    | cons e cur' =>
      have he : isWs e = b := hcurb e (by simp)
      have hb' : isWs b' = b := hrb b' (by simp)
      have heq : isWs b' = isWs e := by rw [he, hb']
      have h1 : chunkRunsAux (e :: cur') ((b' :: r') ++ cs) =
          chunkRunsAux (b' :: e :: cur') (r' ++ cs) := by
        simp [chunkRunsAux, heq]
      rw [h1, ih (b' :: e :: cur') cs (by simp) ?hcurb (fun c hc => hrb c (by simp [hc])) hcs]
      · simp
      case hcurb =>
        intro c hc
        rcases List.mem_cons.mp hc with rfl | hc
        · exact hb'
        · exact hcurb c hc

/-- The `\s\s+` substitution agrees with the run-decomposition description:
each maximal whitespace run of length at least two becomes one space and
all other runs are kept verbatim. -/
theorem collapseWs_eq_chunks : ∀ (n : Nat) (l : List Char), l.length ≤ n →
    collapseWsAux false l =
      ((chunkRuns l).map fun r =>
        if 2 ≤ r.length && r.all isWs then [' '] else r).flatten := by
  intro n
  induction n with
  | zero =>
    intro l hl
    have : l = [] := List.length_eq_zero.mp (Nat.le_zero.mp hl)
    subst this
    rfl
  | succ n ih =>
    intro l hl
    cases l with
    | nil => rfl
    | cons a l' =>
      obtain ⟨r, cs, hsplit, hrall, hboundary, hlen⟩ :
          ∃ r cs, l' = r ++ cs ∧ (∀ c ∈ r, isWs c = isWs a) ∧
            (cs = [] ∨ ∃ d ds, cs = d :: ds ∧ isWs d ≠ isWs a) ∧ cs.length ≤ n := by
        refine ⟨l'.takeWhile (fun c => isWs c == isWs a),
          l'.dropWhile (fun c => isWs c == isWs a),
          (List.takeWhile_append_dropWhile _ _).symm, ?_, ?_, ?_⟩
        · intro c hc
          have := List.mem_takeWhile_imp hc
          simpa using this
        · cases hcase : l'.dropWhile (fun c => isWs c == isWs a) with
          | nil => exact Or.inl rfl
          | cons d ds =>
            refine Or.inr ⟨d, ds, rfl, ?_⟩
            have := List.head?_dropWhile_not (fun c => isWs c == isWs a) l'
            rw [hcase] at this
            simpa using this
        · have h1 : (l'.dropWhile (fun c => isWs c == isWs a)).length ≤ l'.length :=
            (List.dropWhile_sublist _).length_le
          have h2 : l'.length ≤ n := Nat.le_of_succ_le_succ hl
          exact Nat.le_trans h1 h2
      subst hsplit
      have hchunk : chunkRuns (a :: (r ++ cs)) = (a :: r) :: chunkRuns cs := by
        show chunkRunsAux [] (a :: (r ++ cs)) = (a :: r) :: chunkRuns cs
        have h0 : chunkRunsAux [] (a :: (r ++ cs)) = chunkRunsAux [a] (r ++ cs) := by
          cases hrc : r ++ cs with
          | nil => simp [chunkRunsAux, hrc]
          | cons x xs => simp [chunkRunsAux, hrc]
        rw [h0, chunkRunsAux_peel (isWs a) r [a] cs (by simp) (by simp) hrall hboundary]
        simp
      rw [hchunk]
      simp only [List.map_cons, List.flatten_cons]
      rw [← ih cs hlen]
      by_cases ha : isWs a = true
      · have hr2 : ∀ c ∈ r, isWs c = true := fun c hc => (hrall c hc).trans ha
        have := peel_ws a r cs ha hr2 (by
          rcases hboundary with h | ⟨d, ds, hdd, hd⟩
          · exact Or.inl h
          · exact Or.inr ⟨d, ds, hdd, by simpa [ha] using hd⟩)
        rw [← List.cons_append, this]
        by_cases hre : r.isEmpty
        · have : r = [] := List.isEmpty_iff.mp hre
          subst this
          simp [ha]
        · have hrne : r ≠ [] := fun h => hre (by simp [h])
          have hlen2 : 1 ≤ r.length := by
            cases r with
            | nil => exact absurd rfl hrne
            | cons x xs => simp
          have hall : (a :: r).all isWs = true := by
            rw [List.all_eq_true]
            intro c hc
            rcases List.mem_cons.mp hc with rfl | hc
            · exact ha
            · exact hr2 c hc
          simp [hre, hlen2, hall]
      · have ha' : isWs a = false := by simpa using ha
        have hr2 : ∀ c ∈ r, isWs c = false := fun c hc => (hrall c hc).trans ha'
        have hrun : ∀ c ∈ (a :: r), isWs c = false := by
          intro c hc
          rcases List.mem_cons.mp hc with rfl | hc
          · exact ha'
          · exact hr2 c hc
        have := peel_nonws (a :: r) cs hrun
        rw [← List.cons_append, this]
        have hallf : (a :: r).all isWs = false := by
          simp only [List.all_cons, ha', Bool.false_and]
        simp [hallf]

/-- Overwriting an existing key stores the new value. -/
theorem pyGet_map_set (k v : String) : ∀ c, hasKey c k = true →
    pyGet (c.map fun p => if p.1 == k then (k, v) else p) k = some v := by
  intro c
  induction c with
  | nil =>
    intro h
    simp [hasKey] at h
  | cons p c ih =>
    intro h
    by_cases hp : (p.1 == k) = true
    · rw [List.map_cons, if_pos hp]
      unfold pyGet
      rw [List.find?_cons_of_pos _ (by simp)]
      rfl
    · rw [List.map_cons, if_neg hp]
      unfold pyGet
      rw [List.find?_cons_of_neg _ (by simpa using hp)]
      have h2 : hasKey c k = true := by
        simp only [hasKey, List.any_cons, Bool.or_eq_true] at h
        rcases h with h1 | h1
        · exact absurd h1 hp
        · simpa [hasKey] using h1
      exact ih h2

/-- Appending a fresh key stores its value. -/
theorem pyGet_append_set (k v : String) : ∀ c, hasKey c k = false →
    pyGet (c ++ [(k, v)]) k = some v := by
  intro c
  induction c with
  | nil =>
    intro h
    unfold pyGet
    rw [List.nil_append, List.find?_cons_of_pos _ (by simp)]
    rfl
  | cons p c ih =>
    intro h
    simp only [hasKey, List.any_cons, Bool.or_eq_false_iff] at h
    rw [List.cons_append]
    unfold pyGet
    rw [List.find?_cons_of_neg _ (by simp [h.1])]
    exact ih (by simpa [hasKey] using h.2)

/-- Last-write-wins: after `c[k] = v`, looking up `k` yields `v`. -/
theorem pyGet_dictSet_self (c : List (String × String)) (k v : String) :
    pyGet (dictSet c k v) k = some v := by
  unfold dictSet
  by_cases h : hasKey c k = true
  · rw [if_pos h]
    exact pyGet_map_set k v c h
  · rw [if_neg h]
    exact pyGet_append_set k v c (by simpa using h)

/-- Overwriting one key leaves lookups of other keys unchanged. -/
theorem pyGet_map_other (k v k' : String) (hne : k' ≠ k) :
    ∀ c, pyGet (c.map fun p => if p.1 == k then (k, v) else p) k' = pyGet c k' := by
  have hkk' : (k == k') = false := by
    simp [Ne.symm hne]
  intro c
  induction c with
  | nil => rfl
  | cons p c ih =>
    by_cases hp : (p.1 == k) = true
    · have hp1 : p.1 = k := by simpa using hp
      rw [List.map_cons, if_pos hp]
      unfold pyGet
      rw [List.find?_cons_of_neg _ (by simp [hkk'])]
      rw [List.find?_cons_of_neg _ (by simp [hp1, hkk'])]
      exact ih
    · rw [List.map_cons, if_neg hp]
      by_cases hp' : (p.1 == k') = true
      · unfold pyGet
        rw [List.find?_cons_of_pos _ (by simpa using hp'),
          List.find?_cons_of_pos _ (by simpa using hp')]
      · unfold pyGet
        rw [List.find?_cons_of_neg _ (by simpa using hp'),
          List.find?_cons_of_neg _ (by simpa using hp')]
        exact ih

/-- Appending a fresh key leaves lookups of other keys unchanged. -/
theorem pyGet_append_other (k v k' : String) (hne : k' ≠ k) :
    ∀ c, pyGet (c ++ [(k, v)]) k' = pyGet c k' := by
  have hkk' : (k == k') = false := by
    simp [Ne.symm hne]
  intro c
  induction c with
  | nil =>
    unfold pyGet
    rw [List.nil_append, List.find?_cons_of_neg _ (by simp [hkk'])]
  | cons p c ih =>
    rw [List.cons_append]
    by_cases hp' : (p.1 == k') = true
    · unfold pyGet
      rw [List.find?_cons_of_pos _ (by simpa using hp'),
        List.find?_cons_of_pos _ (by simpa using hp')]
    · unfold pyGet
      rw [List.find?_cons_of_neg _ (by simpa using hp'),
        List.find?_cons_of_neg _ (by simpa using hp')]
      exact ih

/-- `c[k] = v` does not disturb any other key. -/
theorem pyGet_dictSet_other (c : List (String × String)) (k v k' : String) (hne : k' ≠ k) :
    pyGet (dictSet c k v) k' = pyGet c k' := by
  unfold dictSet
  by_cases h : hasKey c k = true
  · rw [if_pos h]
    exact pyGet_map_other k v k' hne c
  · rw [if_neg h]
    exact pyGet_append_other k v k' hne c

/-- C7 (amended): for every line matching the key=value pattern, the stored
key and value equal the matched text trimmed of leading/trailing whitespace
with every internal run of two or more whitespace characters collapsed to a
single space (an isolated non-space whitespace character is preserved); and
when the same key matches on several lines, the stored value is the one
from the last matching line (last-write-wins, no duplicate-key error). -/
theorem c7_normalization_last_write_wins :
    (∀ l : List Char, strip_whitespace l = specStripWhitespace l) ∧
    (∀ (c : List (String × String)) (k v : String), pyGet (dictSet c k v) k = some v) ∧
    (∀ (c : List (String × String)) (k v k' : String), k' ≠ k →
      pyGet (dictSet c k v) k' = pyGet c k') ∧
    pyGet (parseConfig c7DupContents) "A" = some "2" := by
  refine ⟨?_, pyGet_dictSet_self, pyGet_dictSet_other, by decide⟩
  intro l
  unfold strip_whitespace specStripWhitespace
  exact collapseWs_eq_chunks (pyStrip l).length (pyStrip l) le_rfl

/-- C7 witness: the amended theorem at concrete inputs (normalisation of a
concrete value, the overwrite law, and preservation of another key). -/
theorem c7_normalization_last_write_wins_witness :
    strip_whitespace "  a   b ".data = specStripWhitespace "  a   b ".data ∧
    pyGet (dictSet [("A", "1")] "A" "2") "A" = some "2" ∧
    pyGet (dictSet [("A", "1")] "B" "3") "A" = pyGet [("A", "1")] "A" :=
  ⟨c7_normalization_last_write_wins.1 _,
   c7_normalization_last_write_wins.2.1 _ _ _,
   c7_normalization_last_write_wins.2.2.1 _ "B" "3" "A" (by decide)⟩

end OpenwrtBuild
